import Mathlib

/-!
Verification of the tic-tac-toe game engine in
`src/tic_tac_toe_backend/src/api/main.py`.

The source stores board cells as the strings `""`, `"X"`, `"O"`; we embed
them as the inductive type `Mark`.  Game status strings `IN_PROGRESS`,
`X_WON`, `O_WON`, `DRAW` become the inductive type `Status`.  The mutable
`_Game` objects become the immutable structure `Game`; the process-wide
dict `_GAMES` becomes an association list `Registry`, with dict mutation
embedded as explicit state passing.  HTTP exceptions become the `MoveError`
type wrapped in `Except`.
-/

/-- Content of one board cell: the strings `""`, `"X"`, `"O"` of the source. -/
inductive Mark where
  | Empty : Mark
  | X : Mark
  | O : Mark
deriving DecidableEq, Repr

/-- Game status: the strings `IN_PROGRESS`, `X_WON`, `O_WON`, `DRAW`. -/
inductive Status where
  | InProgress : Status
  | XWon : Status
  | OWon : Status
  | Draw : Status
deriving DecidableEq, Repr

/-- The `_Game` class: board list, `next_player`, `status`. -/
structure Game where
  board : List Mark
  nextPlayer : Mark
  status : Status
deriving DecidableEq, Repr

/-- The four error kinds raised by the endpoints as `HTTPException`s. -/
inductive MoveError where
  | GameNotFound : MoveError
  | GameFinished : MoveError
  | InvalidPosition : MoveError
  | CellOccupied : MoveError
deriving DecidableEq, Repr

instance {ε α : Type} [DecidableEq ε] [DecidableEq α] : DecidableEq (Except ε α) :=
  fun x y =>
    match x, y with
    | Except.error a, Except.error b =>
      if h : a = b then Decidable.isTrue (by rw [h])
      else Decidable.isFalse (by intro hc; cases hc; exact h rfl)
    | Except.error _, Except.ok _ => Decidable.isFalse (by intro h; cases h)
    | Except.ok _, Except.error _ => Decidable.isFalse (by intro h; cases h)
    | Except.ok a, Except.ok b =>
      if h : a = b then Decidable.isTrue (by rw [h])
      else Decidable.isFalse (by intro hc; cases hc; exact h rfl)

/-- `_Game.__init__`: 9 empty cells, `X` to move, in progress. -/
def newGame : Game :=
  { board := List.replicate 9 Mark.Empty
    nextPlayer := Mark.X
    status := Status.InProgress }

/-- Reading `board[i]` (in the source every indexed access is in bounds on a
9-cell board; out-of-range reads default to `Empty` here). -/
def cellAt (board : List Mark) (i : Nat) : Mark :=
  board.getD i Mark.Empty

/-- The list `winning_lines` of `_check_winner`, in source order:
3 rows, 3 columns, 2 diagonals. -/
def winningLines : List (Nat × Nat × Nat) :=
  [(0, 1, 2), (3, 4, 5), (6, 7, 8),
   (0, 3, 6), (1, 4, 7), (2, 5, 8),
   (0, 4, 8), (2, 4, 6)]

/-- The loop body test of `_check_winner`:
`board[a] and board[a] == board[b] == board[c]`. -/
def lineWon (board : List Mark) : Nat × Nat × Nat → Bool
  | (a, b, c) =>
    (cellAt board a != Mark.Empty) &&
    (cellAt board a == cellAt board b) &&
    (cellAt board b == cellAt board c)

/-- The `for`-loop of `_check_winner`: first winning line (in list order)
determines the returned mark. -/
def checkWinnerAux (board : List Mark) : List (Nat × Nat × Nat) → Option Mark
  | [] => none
  | t :: rest =>
    if lineWon board t then some (cellAt board t.1) else checkWinnerAux board rest

/-- `_check_winner`: returns the winner mark, or `none`. -/
def checkWinner (board : List Mark) : Option Mark :=
  checkWinnerAux board winningLines

/-- The draw test of `_update_status`:
`all(cell in ("X", "O") for cell in game.board)`. -/
def isFull (board : List Mark) : Bool :=
  board.all (fun c => c == Mark.X || c == Mark.O)

/-- `_update_status`, as the pure evaluator computing the new status from a
board (the source mutates `game.status`; here we return the value). -/
def updateStatus (board : List Mark) : Status :=
  match checkWinner board with
  | some Mark.X => Status.XWon
  | some Mark.O => Status.OWon
  | _ => if isFull board then Status.Draw else Status.InProgress

/-- `"O" if game.next_player == "X" else "X"` from `make_move`. -/
def flipPlayer (m : Mark) : Mark :=
  if m = Mark.X then Mark.O else Mark.X

/-- The engine part of `make_move`, acting on a single game: the three
precondition checks in source order, then the mutation (placement, status
recomputation, conditional player flip), returning the updated state. -/
def applyMove (g : Game) (pos : Int) : Except MoveError Game :=
  if g.status ≠ Status.InProgress then
    Except.error MoveError.GameFinished
  else if ¬ (0 ≤ pos ∧ pos ≤ 8) then
    Except.error MoveError.InvalidPosition
  else
    let p := pos.toNat
    if cellAt g.board p = Mark.X ∨ cellAt g.board p = Mark.O then
      Except.error MoveError.CellOccupied
    else
      let board2 := g.board.set p g.nextPlayer
      let status2 := updateStatus board2
      let next2 :=
        if status2 = Status.InProgress then flipPlayer g.nextPlayer
        else g.nextPlayer
      Except.ok { board := board2, nextPlayer := next2, status := status2 }

/-- The dict `_GAMES`, embedded as an association list. -/
abbrev Registry : Type := List (String × Game)

/-- `_GAMES.get(gameId)`: first binding of the key, if any. -/
def getGame : Registry → String → Option Game
  | [], _ => none
  | (k, g) :: rest, gid => if k = gid then some g else getGame rest gid

/-- `create_game` with the freshly generated id as a parameter (the source
draws it from `uuid.uuid4()`): stores a new `_Game` under the id. -/
def createGame (reg : Registry) (gid : String) : Registry :=
  (gid, newGame) :: reg

/-- Replacing the value stored under an existing key, the pure image of the
source mutating the `_Game` object held in the dict. -/
def setGame : Registry → String → Game → Registry
  | [], _, _ => []
  | (k, g) :: rest, gid, g2 =>
    if k = gid then (k, g2) :: rest else (k, g) :: setGame rest gid g2

/-- `get_game_state`: look the game up, 404 if absent, else its state
snapshot (`to_state` copies the fields; in the pure embedding the snapshot
is the game value itself). -/
def getGameState (reg : Registry) (gid : String) : Except MoveError Game :=
  match getGame reg gid with
  | none => Except.error MoveError.GameNotFound
  | some g => Except.ok g

/-- `make_move` as a step on the whole registry state: look the game up,
apply the move, store the updated game on success; any raised exception
leaves the registry as it was. -/
def makeMove (reg : Registry) (gid : String) (pos : Int) :
    Registry × Except MoveError Game :=
  match getGame reg gid with
  | none => (reg, Except.error MoveError.GameNotFound)
  | some g =>
    match applyMove g pos with
    | Except.error e => (reg, Except.error e)
    | Except.ok g2 => (setGame reg gid g2, Except.ok g2)

/-- Number of cells equal to a given mark, for the turn-alternation
invariant. -/
def countMark (m : Mark) : List Mark → Nat
  | [] => 0
  | c :: rest => (if c = m then 1 else 0) + countMark m rest

/-- Games reachable from `create` by a sequence of successful moves. -/
inductive Reachable : Game → Prop where
  | init : Reachable newGame
  | step (g g2 : Game) (pos : Int) :
      Reachable g → applyMove g pos = Except.ok g2 → Reachable g2

/-- A winning line filled with mark `m`, as the spec words it. -/
def winsFor (board : List Mark) (m : Mark) : Prop :=
  ∃ t ∈ winningLines,
    cellAt board t.1 = m ∧ cellAt board t.2.1 = m ∧ cellAt board t.2.2 = m

instance (board : List Mark) (m : Mark) : Decidable (winsFor board m) := by
  unfold winsFor
  infer_instance

/-- A finished game: X has completed the top row. -/
def wonGame : Game :=
  { board := [Mark.X, Mark.X, Mark.X, Mark.O, Mark.O,
      Mark.Empty, Mark.Empty, Mark.Empty, Mark.Empty]
    nextPlayer := Mark.X
    status := Status.XWon }

/-- An in-progress game with cell 0 occupied and O to move. -/
def midGame : Game :=
  { board := [Mark.X, Mark.Empty, Mark.Empty, Mark.Empty, Mark.Empty,
      Mark.Empty, Mark.Empty, Mark.Empty, Mark.Empty]
    nextPlayer := Mark.O
    status := Status.InProgress }

theorem applyMove_finished (g : Game) (pos : Int)
    (h : g.status ≠ Status.InProgress) :
    applyMove g pos = Except.error MoveError.GameFinished := by
  simp [applyMove, h]

theorem applyMove_invalid (g : Game) (pos : Int)
    (h : g.status = Status.InProgress) (h2 : ¬ (0 ≤ pos ∧ pos ≤ 8)) :
    applyMove g pos = Except.error MoveError.InvalidPosition := by
  simp only [applyMove, h]
  rw [if_neg (by simp), if_pos h2]

theorem applyMove_occupied (g : Game) (pos : Int)
    (h : g.status = Status.InProgress) (h0 : 0 ≤ pos) (h8 : pos ≤ 8)
    (hc : cellAt g.board pos.toNat = Mark.X ∨ cellAt g.board pos.toNat = Mark.O) :
    applyMove g pos = Except.error MoveError.CellOccupied := by
  simp only [applyMove, h]
  rw [if_neg (by simp), if_neg (by simp [h0, h8]), if_pos hc]

/-- The updated game produced by a successful move, spelled out. -/
def movedGame (g : Game) (pos : Int) : Game :=
  { board := g.board.set pos.toNat g.nextPlayer
    nextPlayer :=
      if updateStatus (g.board.set pos.toNat g.nextPlayer) = Status.InProgress
      then flipPlayer g.nextPlayer else g.nextPlayer
    status := updateStatus (g.board.set pos.toNat g.nextPlayer) }

theorem applyMove_success (g : Game) (pos : Int)
    (h : g.status = Status.InProgress) (h0 : 0 ≤ pos) (h8 : pos ≤ 8)
    (hc : cellAt g.board pos.toNat = Mark.Empty) :
    applyMove g pos = Except.ok (movedGame g pos) := by
  have hocc : ¬ (cellAt g.board pos.toNat = Mark.X ∨
      cellAt g.board pos.toNat = Mark.O) := by
    rw [hc]; simp
  simp only [applyMove, h, movedGame]
  rw [if_neg (by simp), if_neg (by simp [h0, h8]), if_neg hocc]

theorem applyMove_ok_inv (g g2 : Game) (pos : Int)
    (h : applyMove g pos = Except.ok g2) :
    g.status = Status.InProgress ∧ 0 ≤ pos ∧ pos ≤ 8 ∧
    cellAt g.board pos.toNat = Mark.Empty ∧ g2 = movedGame g pos := by
  by_cases h1 : g.status = Status.InProgress
  · by_cases h2 : 0 ≤ pos ∧ pos ≤ 8
    · cases hm : cellAt g.board pos.toNat with
      | Empty =>
        rw [applyMove_success g pos h1 h2.1 h2.2 hm] at h
        exact ⟨h1, h2.1, h2.2, rfl, (Except.ok.injEq _ _).mp h.symm⟩
      | X =>
        rw [applyMove_occupied g pos h1 h2.1 h2.2 (Or.inl hm)] at h
        cases h
      | O =>
        rw [applyMove_occupied g pos h1 h2.1 h2.2 (Or.inr hm)] at h
        cases h
    · rw [applyMove_invalid g pos h1 h2] at h
      cases h
  · rw [applyMove_finished g pos h1] at h
    cases h

/-- C1: a legal move on an in-progress game places the mover's mark at the
chosen position, leaves every other cell unchanged, recomputes the status
from the new board via the evaluator, flips the player exactly when the new
status is still in progress, and returns the full updated state. -/
theorem c1_applyMove_success_shape (g : Game) (pos : Int)
    (hlen : g.board.length = 9) (hs : g.status = Status.InProgress)
    (h0 : 0 ≤ pos) (h8 : pos ≤ 8)
    (hc : cellAt g.board pos.toNat = Mark.Empty) :
    ∃ g2, applyMove g pos = Except.ok g2 ∧
      g2.board = g.board.set pos.toNat g.nextPlayer ∧
      g2.board[pos.toNat]? = some g.nextPlayer ∧
      (∀ i, i ≠ pos.toNat → g2.board[i]? = g.board[i]?) ∧
      g2.status = updateStatus g2.board ∧
      g2.nextPlayer =
        (if g2.status = Status.InProgress then flipPlayer g.nextPlayer
         else g.nextPlayer) := by
  refine ⟨movedGame g pos, applyMove_success g pos hs h0 h8 hc, rfl, ?_, ?_, rfl, rfl⟩
  · have hp : pos.toNat < g.board.length := by omega
    exact List.getElem?_set_eq_of_lt _ hp
  · intro i hi
    exact List.getElem?_set_ne (Ne.symm hi)

theorem c1_witness :
    (newGame.board.length = 9 ∧ newGame.status = Status.InProgress ∧
      (0 : Int) ≤ 4 ∧ (4 : Int) ≤ 8 ∧
      cellAt newGame.board (Int.toNat 4) = Mark.Empty) ∧
    (∃ g2, applyMove newGame 4 = Except.ok g2 ∧
      g2.board = newGame.board.set (Int.toNat 4) newGame.nextPlayer ∧
      g2.board[Int.toNat 4]? = some newGame.nextPlayer ∧
      (∀ i, i ≠ Int.toNat 4 → g2.board[i]? = newGame.board[i]?) ∧
      g2.status = updateStatus g2.board ∧
      g2.nextPlayer =
        (if g2.status = Status.InProgress then flipPlayer newGame.nextPlayer
         else newGame.nextPlayer)) :=
  ⟨⟨by decide, by decide, by decide, by decide, by decide⟩,
   c1_applyMove_success_shape newGame 4 (by decide) (by decide) (by decide)
     (by decide) (by decide)⟩

/-- C2: the three preconditions are checked in a fixed order and the first
failing one determines the error; when all pass the move succeeds. -/
theorem c2_precondition_order (g : Game) (pos : Int) :
    (g.status ≠ Status.InProgress →
      applyMove g pos = Except.error MoveError.GameFinished) ∧
    (g.status = Status.InProgress → ¬ (0 ≤ pos ∧ pos ≤ 8) →
      applyMove g pos = Except.error MoveError.InvalidPosition) ∧
    (g.status = Status.InProgress → 0 ≤ pos → pos ≤ 8 →
      (cellAt g.board pos.toNat = Mark.X ∨ cellAt g.board pos.toNat = Mark.O) →
      applyMove g pos = Except.error MoveError.CellOccupied) ∧
    (g.status = Status.InProgress → 0 ≤ pos → pos ≤ 8 →
      cellAt g.board pos.toNat = Mark.Empty →
      applyMove g pos = Except.ok (movedGame g pos)) :=
  ⟨fun h => applyMove_finished g pos h,
   fun h h2 => applyMove_invalid g pos h h2,
   fun h h0 h8 hc => applyMove_occupied g pos h h0 h8 hc,
   fun h h0 h8 hc => applyMove_success g pos h h0 h8 hc⟩

theorem c2_witness :
    applyMove wonGame 0 = Except.error MoveError.GameFinished ∧
    applyMove newGame (-1) = Except.error MoveError.InvalidPosition ∧
    applyMove newGame 9 = Except.error MoveError.InvalidPosition ∧
    applyMove midGame 0 = Except.error MoveError.CellOccupied ∧
    applyMove midGame 1 = Except.ok (movedGame midGame 1) :=
  ⟨(c2_precondition_order wonGame 0).1 (by decide),
   (c2_precondition_order newGame (-1)).2.1 (by decide) (by decide),
   (c2_precondition_order newGame 9).2.1 (by decide) (by decide),
   (c2_precondition_order midGame 0).2.2.1 (by decide) (by decide) (by decide)
     (by decide),
   (c2_precondition_order midGame 1).2.2.2 (by decide) (by decide) (by decide)
     (by decide)⟩

theorem getGame_setGame_ne (reg : Registry) (gid gid2 : String) (g : Game)
    (h : gid ≠ gid2) :
    getGame (setGame reg gid g) gid2 = getGame reg gid2 := by
  induction reg with
  | nil => rfl
  | cons kv rest ih =>
    obtain ⟨k, v⟩ := kv
    by_cases hk : k = gid
    · subst hk
      have hk2 : ¬ k = gid2 := h
      simp [setGame, getGame, hk2]
    · simp only [setGame]
      rw [if_neg hk]
      by_cases hk2 : k = gid2 <;> simp [getGame, hk2, ih]

/-- C3: whenever a move request fails, for whatever reason, the registry —
and with it every game's board, next player and status — is unchanged. -/
theorem c3_failure_no_mutation (reg : Registry) (gid : String) (pos : Int)
    (e : MoveError) (h : (makeMove reg gid pos).2 = Except.error e) :
    (makeMove reg gid pos).1 = reg := by
  unfold makeMove at h ⊢
  cases hg : getGame reg gid with
  | none => simp
  | some g =>
    cases ha : applyMove g pos with
    | error e2 => simp [ha]
    | ok g2 => simp [hg, ha] at h

theorem c3_witness :
    ((makeMove [("a", wonGame)] "a" 0).2 = Except.error MoveError.GameFinished ∧
      (makeMove [("a", wonGame)] "a" 0).1 = [("a", wonGame)]) ∧
    ((makeMove [("a", wonGame)] "b" 0).2 = Except.error MoveError.GameNotFound ∧
      (makeMove [("a", wonGame)] "b" 0).1 = [("a", wonGame)]) :=
  ⟨⟨by decide,
    c3_failure_no_mutation [("a", wonGame)] "a" 0 MoveError.GameFinished
      (by decide)⟩,
   ⟨by decide,
    c3_failure_no_mutation [("a", wonGame)] "b" 0 MoveError.GameNotFound
      (by decide)⟩⟩

/-- C5: terminal statuses are absorbing — once a game's status is not
InProgress, every move on it fails with GameFinished and the registry state
is unchanged, for every position. -/
theorem c5_terminal_absorbing (reg : Registry) (gid : String) (g : Game)
    (pos : Int) (hg : getGame reg gid = some g)
    (ht : g.status ≠ Status.InProgress) :
    applyMove g pos = Except.error MoveError.GameFinished ∧
    makeMove reg gid pos = (reg, Except.error MoveError.GameFinished) := by
  have ha := applyMove_finished g pos ht
  exact ⟨ha, by simp [makeMove, hg, ha]⟩

theorem c5_witness :
    (getGame [("a", wonGame)] "a" = some wonGame ∧
      wonGame.status ≠ Status.InProgress) ∧
    (applyMove wonGame 5 = Except.error MoveError.GameFinished ∧
      makeMove [("a", wonGame)] "a" 5 =
        ([("a", wonGame)], Except.error MoveError.GameFinished)) :=
  ⟨⟨by decide, by decide⟩,
   c5_terminal_absorbing [("a", wonGame)] "a" wonGame 5 (by decide) (by decide)⟩

/-- C6: a freshly created game has 9 empty cells, X to move, status
InProgress; creation always succeeds and stores exactly that game under the
fresh id. -/
theorem c6_create_game :
    newGame.board = List.replicate 9 Mark.Empty ∧
    newGame.board.length = 9 ∧
    newGame.board.all (fun c => c == Mark.Empty) = true ∧
    newGame.nextPlayer = Mark.X ∧
    newGame.status = Status.InProgress ∧
    ∀ (reg : Registry) (gid : String),
      getGame (createGame reg gid) gid = some newGame := by
  refine ⟨rfl, rfl, rfl, rfl, rfl, ?_⟩
  intro reg gid
  simp [createGame, getGame]

/-- C8: an id absent from the registry makes both state fetching and move
making fail with GameNotFound, whatever the registry is — including the
empty one; looking up any present id succeeds. -/
theorem c8_lookup (reg : Registry) (gid : String) (pos : Int)
    (h : getGame reg gid = none) :
    getGameState reg gid = Except.error MoveError.GameNotFound ∧
    makeMove reg gid pos = (reg, Except.error MoveError.GameNotFound) ∧
    ∀ (gid2 : String) (g2 : Game), getGame reg gid2 = some g2 →
      getGameState reg gid2 = Except.ok g2 := by
  refine ⟨by simp [getGameState, h], by simp [makeMove, h], ?_⟩
  intro gid2 g2 h2
  simp [getGameState, h2]

theorem c8_witness :
    (getGame ([] : Registry) "a" = none ∧
      getGame [("b", newGame)] "a" = none) ∧
    ((getGameState ([] : Registry) "a" = Except.error MoveError.GameNotFound ∧
      makeMove ([] : Registry) "a" 0 =
        (([] : Registry), Except.error MoveError.GameNotFound) ∧
      ∀ (gid2 : String) (g2 : Game), getGame ([] : Registry) gid2 = some g2 →
        getGameState ([] : Registry) gid2 = Except.ok g2) ∧
     (getGameState [("b", newGame)] "a" = Except.error MoveError.GameNotFound ∧
      makeMove [("b", newGame)] "a" 0 =
        ([("b", newGame)], Except.error MoveError.GameNotFound) ∧
      ∀ (gid2 : String) (g2 : Game), getGame [("b", newGame)] gid2 = some g2 →
        getGameState [("b", newGame)] gid2 = Except.ok g2)) :=
  ⟨⟨rfl, by decide⟩,
   c8_lookup ([] : Registry) "a" 0 rfl,
   c8_lookup [("b", newGame)] "a" 0 (by decide)⟩

/-- C9: games are isolated — a move addressed to one id never changes the
game stored under any other id. -/
theorem c9_isolation (reg : Registry) (gidA gidB : String) (pos : Int)
    (h : gidA ≠ gidB) :
    getGame (makeMove reg gidA pos).1 gidB = getGame reg gidB := by
  unfold makeMove
  split
  · rfl
  · split
    · rfl
    · exact getGame_setGame_ne reg gidA gidB _ h

theorem c9_witness :
    ("a" ≠ "b") ∧
    getGame (makeMove [("a", newGame), ("b", midGame)] "a" 4).1 "b" =
      getGame [("a", newGame), ("b", midGame)] "b" :=
  ⟨by decide,
   c9_isolation [("a", newGame), ("b", midGame)] "a" "b" 4 (by decide)⟩

theorem checkWinnerAux_eq_find (board : List Mark)
    (ls : List (Nat × Nat × Nat)) :
    checkWinnerAux board ls =
      (ls.find? (lineWon board)).map (fun t => cellAt board t.1) := by
  induction ls with
  | nil => rfl
  | cons t rest ih =>
    by_cases ht : lineWon board t
    · simp [checkWinnerAux, List.find?_cons_of_pos, ht]
    · rw [checkWinnerAux, if_neg (by simp [ht]), ih,
        List.find?_cons_of_neg _ (by simp [ht])]

theorem lineWon_iff (board : List Mark) (t : Nat × Nat × Nat) :
    lineWon board t = true ↔
      cellAt board t.1 ≠ Mark.Empty ∧
      cellAt board t.1 = cellAt board t.2.1 ∧
      cellAt board t.2.1 = cellAt board t.2.2 := by
  obtain ⟨a, b, c⟩ := t
  simp [lineWon, and_assoc]

theorem checkWinner_some (board : List Mark) (m : Mark)
    (h : checkWinner board = some m) :
    m ≠ Mark.Empty ∧ winsFor board m := by
  rw [checkWinner, checkWinnerAux_eq_find] at h
  cases hf : winningLines.find? (lineWon board) with
  | none => rw [hf] at h; cases h
  | some t =>
    rw [hf] at h
    simp only [Option.map_some'] at h
    have hmem := List.mem_of_find?_eq_some hf
    have hp := List.find?_some hf
    rw [lineWon_iff] at hp
    obtain ⟨hne, h12, h23⟩ := hp
    injection h with h
    subst h
    exact ⟨hne, ⟨t, hmem, rfl, h12.symm, (h12.trans h23).symm⟩⟩

theorem checkWinner_isSome_of_winsFor (board : List Mark) (m : Mark)
    (hm : m ≠ Mark.Empty) (hw : winsFor board m) :
    ∃ m2, checkWinner board = some m2 := by
  obtain ⟨t, hmem, h1, h2, h3⟩ := hw
  have hline : lineWon board t = true := by
    rw [lineWon_iff]
    exact ⟨by rw [h1]; exact hm, by rw [h1, h2], by rw [h2, h3]⟩
  have hsome : (winningLines.find? (lineWon board)).isSome := by
    rw [List.find?_isSome]
    exact ⟨t, hmem, hline⟩
  rw [checkWinner, checkWinnerAux_eq_find]
  cases hf : winningLines.find? (lineWon board) with
  | none => rw [hf] at hsome; cases hsome
  | some t2 => exact ⟨cellAt board t2.1, by simp⟩

theorem checkWinner_none_of_no_wins (board : List Mark)
    (hx : ¬ winsFor board Mark.X) (ho : ¬ winsFor board Mark.O) :
    checkWinner board = none := by
  cases hf : checkWinner board with
  | none => rfl
  | some m =>
    obtain ⟨hne, hw⟩ := checkWinner_some board m hf
    cases m with
    | Empty => exact absurd rfl hne
    | X => exact absurd hw hx
    | O => exact absurd hw ho

theorem isFull_iff (board : List Mark) :
    isFull board = true ↔ ∀ c ∈ board, c ≠ Mark.Empty := by
  simp only [isFull, List.all_eq_true]
  constructor <;> intro h c hc <;> have hcc := h c hc <;> cases c <;>
    simp_all

/-- C4: the evaluator examines exactly the 8 fixed winning lines; a filled
line for a non-empty mark yields that mark's win status, a full board with
no winning line yields Draw, and otherwise the game stays in progress. -/
theorem c4_evaluator (board : List Mark) (hlen : board.length = 9) :
    winningLines = [(0, 1, 2), (3, 4, 5), (6, 7, 8), (0, 3, 6), (1, 4, 7),
      (2, 5, 8), (0, 4, 8), (2, 4, 6)] ∧
    (winsFor board Mark.X → ¬ winsFor board Mark.O →
      updateStatus board = Status.XWon) ∧
    (winsFor board Mark.O → ¬ winsFor board Mark.X →
      updateStatus board = Status.OWon) ∧
    (winsFor board Mark.X ∨ winsFor board Mark.O →
      updateStatus board = Status.XWon ∨ updateStatus board = Status.OWon) ∧
    (¬ winsFor board Mark.X → ¬ winsFor board Mark.O →
      (∀ c ∈ board, c ≠ Mark.Empty) → updateStatus board = Status.Draw) ∧
    (¬ winsFor board Mark.X → ¬ winsFor board Mark.O →
      (∃ c ∈ board, c = Mark.Empty) →
      updateStatus board = Status.InProgress) := by
  have hsome : ∀ m, checkWinner board = some m →
      (m = Mark.X ∧ winsFor board Mark.X) ∨
      (m = Mark.O ∧ winsFor board Mark.O) := by
    intro m hm
    obtain ⟨hne, hw⟩ := checkWinner_some board m hm
    cases m with
    | Empty => exact absurd rfl hne
    | X => exact Or.inl ⟨rfl, hw⟩
    | O => exact Or.inr ⟨rfl, hw⟩
  refine ⟨rfl, ?_, ?_, ?_, ?_, ?_⟩
  · intro hx hno
    obtain ⟨m, hm⟩ := checkWinner_isSome_of_winsFor board Mark.X (by decide) hx
    rcases hsome m hm with ⟨rfl, _⟩ | ⟨rfl, hw⟩
    · simp [updateStatus, hm]
    · exact absurd hw hno
  · intro ho hnx
    obtain ⟨m, hm⟩ := checkWinner_isSome_of_winsFor board Mark.O (by decide) ho
    rcases hsome m hm with ⟨rfl, hw⟩ | ⟨rfl, _⟩
    · exact absurd hw hnx
    · simp [updateStatus, hm]
  · intro hxo
    have hex : ∃ m2, checkWinner board = some m2 := by
      rcases hxo with hx | ho
      · exact checkWinner_isSome_of_winsFor board Mark.X (by decide) hx
      · exact checkWinner_isSome_of_winsFor board Mark.O (by decide) ho
    obtain ⟨m, hm⟩ := hex
    rcases hsome m hm with ⟨rfl, _⟩ | ⟨rfl, _⟩
    · exact Or.inl (by simp [updateStatus, hm])
    · exact Or.inr (by simp [updateStatus, hm])
  · intro hnx hno hfull
    have hcw := checkWinner_none_of_no_wins board hnx hno
    have hf : isFull board = true := (isFull_iff board).mpr hfull
    simp [updateStatus, hcw, hf]
  · intro hnx hno hemp
    have hcw := checkWinner_none_of_no_wins board hnx hno
    have hf : isFull board = false := by
      rw [Bool.eq_false_iff]
      intro hfull
      obtain ⟨c, hc, hce⟩ := hemp
      exact absurd hce ((isFull_iff board).mp hfull c hc)
    simp [updateStatus, hcw, hf]

/-- A complete draw board used as the C4 witness input. -/
def drawBoard : List Mark :=
  [Mark.X, Mark.O, Mark.X,
   Mark.O, Mark.X, Mark.O,
   Mark.O, Mark.X, Mark.O]

theorem c4_witness :
    drawBoard.length = 9 ∧
    (winningLines = [(0, 1, 2), (3, 4, 5), (6, 7, 8), (0, 3, 6), (1, 4, 7),
      (2, 5, 8), (0, 4, 8), (2, 4, 6)] ∧
    (winsFor drawBoard Mark.X → ¬ winsFor drawBoard Mark.O →
      updateStatus drawBoard = Status.XWon) ∧
    (winsFor drawBoard Mark.O → ¬ winsFor drawBoard Mark.X →
      updateStatus drawBoard = Status.OWon) ∧
    (winsFor drawBoard Mark.X ∨ winsFor drawBoard Mark.O →
      updateStatus drawBoard = Status.XWon ∨
        updateStatus drawBoard = Status.OWon) ∧
    (¬ winsFor drawBoard Mark.X → ¬ winsFor drawBoard Mark.O →
      (∀ c ∈ drawBoard, c ≠ Mark.Empty) →
      updateStatus drawBoard = Status.Draw) ∧
    (¬ winsFor drawBoard Mark.X → ¬ winsFor drawBoard Mark.O →
      (∃ c ∈ drawBoard, c = Mark.Empty) →
      updateStatus drawBoard = Status.InProgress)) :=
  ⟨by decide, c4_evaluator drawBoard (by decide)⟩

/-- A board on which both X and O have a completed line; the O line comes
first in the fixed line order. -/
def bothLinesBoard : List Mark :=
  [Mark.O, Mark.O, Mark.O,
   Mark.X, Mark.X, Mark.X,
   Mark.Empty, Mark.Empty, Mark.Empty]

/-- C7 is false on the code: with an all-X line and an all-O line both
present, the evaluator reports the mark of the first winning line in list
order, here OWon, not XWon. -/
theorem c7_counterexample :
    winsFor bothLinesBoard Mark.X ∧ winsFor bothLinesBoard Mark.O ∧
    updateStatus bothLinesBoard = Status.OWon ∧
    updateStatus bothLinesBoard ≠ Status.XWon := by decide

/-- C7 amended: when both an all-X and an all-O line exist, the result is
XWon or OWon according to the mark of the earliest winning line in the
fixed order (rows, then columns, then diagonals), not X before O. -/
theorem c7_first_line_tiebreak (board : List Mark)
    (hx : winsFor board Mark.X) (ho : winsFor board Mark.O) :
    ∃ t, winningLines.find? (lineWon board) = some t ∧
      updateStatus board =
        (if cellAt board t.1 = Mark.X then Status.XWon else Status.OWon) := by
  obtain ⟨t0, hmem, h1, h2, h3⟩ := hx
  have hline : lineWon board t0 = true := by
    rw [lineWon_iff]
    exact ⟨by rw [h1]; decide, by rw [h1, h2], by rw [h2, h3]⟩
  have hsome : (winningLines.find? (lineWon board)).isSome := by
    rw [List.find?_isSome]
    exact ⟨t0, hmem, hline⟩
  obtain ⟨t, hf⟩ := Option.isSome_iff_exists.mp hsome
  refine ⟨t, hf, ?_⟩
  have hcw : checkWinner board = some (cellAt board t.1) := by
    rw [checkWinner, checkWinnerAux_eq_find, hf]; rfl
  have hprop := checkWinner_some board (cellAt board t.1) hcw
  cases hm : cellAt board t.1 with
  | Empty => rw [hm] at hprop; exact absurd rfl hprop.1
  | X => rw [hm] at hcw; simp [updateStatus, hcw]
  | O => rw [hm] at hcw; simp [updateStatus, hcw]

theorem c7_witness :
    (winsFor bothLinesBoard Mark.X ∧ winsFor bothLinesBoard Mark.O) ∧
    (∃ t, winningLines.find? (lineWon bothLinesBoard) = some t ∧
      updateStatus bothLinesBoard =
        (if cellAt bothLinesBoard t.1 = Mark.X then Status.XWon
         else Status.OWon)) :=
  ⟨⟨by decide, by decide⟩,
   c7_first_line_tiebreak bothLinesBoard (by decide) (by decide)⟩

theorem countMark_set (l : List Mark) (n : Nat) (m m2 : Mark)
    (hn : n < l.length) (he : cellAt l n = Mark.Empty) (hm2 : m2 ≠ Mark.Empty) :
    countMark m2 (l.set n m) = countMark m2 l + (if m = m2 then 1 else 0) := by
  induction l generalizing n with
  | nil => simp at hn
  | cons c cs ih =>
    cases n with
    | zero =>
      have hc : c = Mark.Empty := he
      subst hc
      have hne : ¬ (Mark.Empty = m2) := fun hh => hm2 hh.symm
      by_cases hmm : m = m2 <;> simp [List.set, countMark, hmm, hne] <;> omega
    | succ k =>
      have hk : k < cs.length := by simpa using hn
      have he2 : cellAt cs k = Mark.Empty := he
      simp only [List.set, countMark]
      rw [ih k hk he2]
      omega

/-- The inductive invariant tying the turn marker to the mark counts: while
in progress the player to move is X exactly when the counts are equal;
after the game ends the player field still names the last mover. -/
def TurnInv (g : Game) : Prop :=
  g.board.length = 9 ∧
  (g.status = Status.InProgress →
    (g.nextPlayer = Mark.X ∧
      countMark Mark.X g.board = countMark Mark.O g.board) ∨
    (g.nextPlayer = Mark.O ∧
      countMark Mark.X g.board = countMark Mark.O g.board + 1)) ∧
  (g.status ≠ Status.InProgress →
    (g.nextPlayer = Mark.X ∧
      countMark Mark.X g.board = countMark Mark.O g.board + 1) ∨
    (g.nextPlayer = Mark.O ∧
      countMark Mark.X g.board = countMark Mark.O g.board))

theorem turnInv_newGame : TurnInv newGame :=
  ⟨rfl, fun _ => Or.inl ⟨rfl, by decide⟩, fun h => absurd rfl h⟩

theorem turnInv_step (g g2 : Game) (pos : Int) (hinv : TurnInv g)
    (h : applyMove g pos = Except.ok g2) : TurnInv g2 := by
  obtain ⟨hs, h0, h8, hc, hg2⟩ := applyMove_ok_inv g g2 pos h
  obtain ⟨hlen, hip, _⟩ := hinv
  have hp : pos.toNat < g.board.length := by omega
  have hcX := countMark_set g.board pos.toNat g.nextPlayer Mark.X hp hc
    (by decide)
  have hcO := countMark_set g.board pos.toNat g.nextPlayer Mark.O hp hc
    (by decide)
  subst hg2
  refine ⟨by simp [movedGame, hlen], fun hst2 => ?_, fun hst2 => ?_⟩
  · simp only [movedGame] at hst2 ⊢
    rw [if_pos hst2]
    rcases hip hs with ⟨hnp, hcnt⟩ | ⟨hnp, hcnt⟩
    · rw [hnp] at hcX hcO
      rw [if_pos rfl] at hcX
      rw [if_neg (by decide)] at hcO
      right
      refine ⟨by rw [hnp]; decide, ?_⟩
      rw [hnp]
      omega
    · rw [hnp] at hcX hcO
      rw [if_neg (by decide)] at hcX
      rw [if_pos rfl] at hcO
      left
      refine ⟨by rw [hnp]; decide, ?_⟩
      rw [hnp]
      omega
  · simp only [movedGame] at hst2 ⊢
    rw [if_neg hst2]
    rcases hip hs with ⟨hnp, hcnt⟩ | ⟨hnp, hcnt⟩
    · rw [hnp] at hcX hcO
      rw [if_pos rfl] at hcX
      rw [if_neg (by decide)] at hcO
      left
      refine ⟨hnp, ?_⟩
      rw [hnp]
      omega
    · rw [hnp] at hcX hcO
      rw [if_neg (by decide)] at hcX
      rw [if_pos rfl] at hcO
      right
      refine ⟨hnp, ?_⟩
      rw [hnp]
      omega

theorem turnInv_reachable (g : Game) (h : Reachable g) : TurnInv g := by
  induction h with
  | init => exact turnInv_newGame
  | step g g2 pos _ hap ih => exact turnInv_step g g2 pos ih hap

/-- C10: every game reachable from creation by successful moves has only
marks Empty, X, O on the board, its player-to-move is X or O, the X count
leads the O count by 0 or 1, and while in progress the player to move is X
exactly when the counts are equal. -/
theorem c10_reachable_invariant (g : Game) (h : Reachable g) :
    (∀ c ∈ g.board, c = Mark.Empty ∨ c = Mark.X ∨ c = Mark.O) ∧
    (g.nextPlayer = Mark.X ∨ g.nextPlayer = Mark.O) ∧
    (countMark Mark.X g.board = countMark Mark.O g.board ∨
      countMark Mark.X g.board = countMark Mark.O g.board + 1) ∧
    (g.status = Status.InProgress →
      (g.nextPlayer = Mark.X ↔
        countMark Mark.X g.board = countMark Mark.O g.board)) := by
  obtain ⟨hlen, hip, hterm⟩ := turnInv_reachable g h
  have hcases :
      (g.nextPlayer = Mark.X ∧
        countMark Mark.X g.board = countMark Mark.O g.board) ∨
      (g.nextPlayer = Mark.O ∧
        countMark Mark.X g.board = countMark Mark.O g.board + 1) ∨
      (g.nextPlayer = Mark.X ∧
        countMark Mark.X g.board = countMark Mark.O g.board + 1) ∨
      (g.nextPlayer = Mark.O ∧
        countMark Mark.X g.board = countMark Mark.O g.board) := by
    by_cases hst : g.status = Status.InProgress
    · rcases hip hst with hh | hh
      · exact Or.inl hh
      · exact Or.inr (Or.inl hh)
    · rcases hterm hst with hh | hh
      · exact Or.inr (Or.inr (Or.inl hh))
      · exact Or.inr (Or.inr (Or.inr hh))
  refine ⟨fun c _ => by cases c <;> simp, ?_, ?_, ?_⟩
  · rcases hcases with ⟨hnp, _⟩ | ⟨hnp, _⟩ | ⟨hnp, _⟩ | ⟨hnp, _⟩
    · exact Or.inl hnp
    · exact Or.inr hnp
    · exact Or.inl hnp
    · exact Or.inr hnp
  · rcases hcases with ⟨_, hcnt⟩ | ⟨_, hcnt⟩ | ⟨_, hcnt⟩ | ⟨_, hcnt⟩
    · exact Or.inl hcnt
    · exact Or.inr hcnt
    · exact Or.inr hcnt
    · exact Or.inl hcnt
  · intro hst
    rcases hip hst with ⟨hnp, hcnt⟩ | ⟨hnp, hcnt⟩
    · exact ⟨fun _ => hcnt, fun _ => hnp⟩
    · constructor
      · intro hx
        rw [hnp] at hx
        exact absurd hx (by decide)
      · intro hceq
        rw [hcnt] at hceq
        exact absurd hceq (by omega)

theorem c10_witness :
    Reachable newGame ∧
    ((∀ c ∈ newGame.board, c = Mark.Empty ∨ c = Mark.X ∨ c = Mark.O) ∧
    (newGame.nextPlayer = Mark.X ∨ newGame.nextPlayer = Mark.O) ∧
    (countMark Mark.X newGame.board = countMark Mark.O newGame.board ∨
      countMark Mark.X newGame.board = countMark Mark.O newGame.board + 1) ∧
    (newGame.status = Status.InProgress →
      (newGame.nextPlayer = Mark.X ↔
        countMark Mark.X newGame.board = countMark Mark.O newGame.board))) :=
  ⟨Reachable.init, c10_reachable_invariant newGame Reachable.init⟩

